import Mathlib

/-!
Verification of the rfind predicate library: a shallow embedding of the
filter parsers and matchers in src/filters/filesize.rs, src/filters/time.rs,
src/filters/filetype.rs and src/permissions.rs, together with theorems
settling the specification claims about them.

Rust machine integers are modelled as Nat with explicit reduction modulo
2 ^ 64 where release-mode wrapping can occur; Rust strings are modelled as
List Char; fallible parsing returns Option.
-/

namespace Rfind

/-- Number of values of the u64 machine-integer type. -/
def U64SIZE : Nat := 2 ^ 64

/-- Largest u64 value. -/
def U64MAX : Nat := 2 ^ 64 - 1

/-- Wrapping u64 multiplication, as Rust release-mode `*` on u64. -/
def wmul (a b : Nat) : Nat := a * b % U64SIZE

/-- Saturating u64 addition, as Rust `u64::saturating_add`. -/
def satAdd (a b : Nat) : Nat := min (a + b) U64MAX

/-- Value of a run of decimal digit characters, most significant first. -/
def digitsVal (cs : List Char) : Nat :=
  cs.foldl (fun a c => a * 10 + (c.toNat - 48)) 0

/-- Shared digit-run phase of Rust `from_str_radix` at radix 10: the run
must be nonempty and consist of ASCII digits only. -/
def parseDigits (cs : List Char) : Option Nat :=
  if cs.isEmpty then none
  else if cs.all Char.isDigit then some (digitsVal cs) else none

/-- Rust `u64::from_str`: an optional single leading plus sign (a minus
sign is rejected for unsigned types), then ASCII digits, and the value must
fit in u64. -/
def parseU64 (cs : List Char) : Option Nat :=
  match cs with
  | [] => none
  | c :: rest =>
    if c = '-' then none
    else
      match parseDigits (if c = '+' then rest else c :: rest) with
      | some n => if n ≤ U64MAX then some n else none
      | none => none

/-- Largest i64 value. -/
def I64MAX : Int := 2 ^ 63 - 1

/-- Smallest i64 value. -/
def I64MIN : Int := -(2 ^ 63)

/-- Rust `i64::from_str`: an optional single leading plus or minus sign,
then ASCII digits, and the value must fit in i64. -/
def parseI64 (cs : List Char) : Option Int :=
  match cs with
  | [] => none
  | c :: rest =>
    if c = '+' then
      match parseDigits rest with
      | some n => if (n : Int) ≤ I64MAX then some (n : Int) else none
      | none => none
    else if c = '-' then
      match parseDigits rest with
      | some n => if I64MIN ≤ -(n : Int) then some (-(n : Int)) else none
      | none => none
    else
      match parseDigits (c :: rest) with
      | some n => if (n : Int) ≤ I64MAX then some (n : Int) else none
      | none => none

/-- src/filters/filesize.rs: a size comparison operation. -/
inductive SizeComparison where
  | Exactly
  | Lesser
  | Greater
deriving DecidableEq

/-- src/filters/filesize.rs: a size unit for comparison. -/
inductive SizeUnit where
  | Bytes
  | Kilobytes
  | Megabytes
  | Gigabytes
deriving DecidableEq

/-- src/filters/filesize.rs: size-based filter configuration. The `value`
field is a u64 in the source. -/
structure SizeFilter where
  comparison : SizeComparison
  value : Nat
  unit : SizeUnit
deriving DecidableEq

/-- The unit-character table inside `SizeFilter::parse`. -/
def sizeUnitOf (c : Char) : Option SizeUnit :=
  if c = 'c' then some SizeUnit.Bytes
  else if c = 'k' then some SizeUnit.Kilobytes
  else if c = 'M' then some SizeUnit.Megabytes
  else if c = 'G' then some SizeUnit.Gigabytes
  else none

/-- The part of `SizeFilter::parse` after the sign has been stripped: the
last character selects the unit, the remaining prefix is parsed as u64. -/
def sizeParseRest (comparison : SizeComparison) (rest : List Char) : Option SizeFilter :=
  match rest.getLast? with
  | some u =>
    match sizeUnitOf u with
    | some unit =>
      match parseU64 rest.dropLast with
      | some value => some ⟨comparison, value, unit⟩
      | none => none
    | none => none
  | none => none

/-- `SizeFilter::parse`: a leading `+` selects Greater, a leading `-`
selects Lesser, anything else selects Exactly with the whole string kept. -/
def SizeFilter.parse (s : List Char) : Option SizeFilter :=
  match s with
  | [] => none
  | c :: t =>
    if c = '+' then sizeParseRest SizeComparison.Greater t
    else if c = '-' then sizeParseRest SizeComparison.Lesser t
    else sizeParseRest SizeComparison.Exactly (c :: t)

/-- `SizeFilter::to_bytes`: successive wrapping u64 multiplications by 1024,
as in the source expression `self.value * 1024 * 1024`. -/
def SizeFilter.to_bytes (f : SizeFilter) : Nat :=
  match f.unit with
  | SizeUnit.Bytes => f.value
  | SizeUnit.Kilobytes => wmul f.value 1024
  | SizeUnit.Megabytes => wmul (wmul f.value 1024) 1024
  | SizeUnit.Gigabytes => wmul (wmul (wmul f.value 1024) 1024) 1024

/-- `SizeFilter::matches`: Exactly uses a tolerance band with saturating
u64 arithmetic, Lesser and Greater are strict comparisons. -/
def SizeFilter.matches (f : SizeFilter) (fileSize : Nat) : Bool :=
  let targetSize := f.to_bytes
  match f.comparison with
  | SizeComparison.Exactly =>
    let tolerance : Nat :=
      match f.unit with
      | SizeUnit.Bytes => 0
      | SizeUnit.Kilobytes => 512
      | SizeUnit.Megabytes => 524288
      | SizeUnit.Gigabytes => 536870912
    let lower := targetSize - tolerance
    let upper := satAdd targetSize tolerance
    decide (lower ≤ fileSize) && decide (fileSize ≤ upper)
  | SizeComparison.Lesser => decide (fileSize < targetSize)
  | SizeComparison.Greater => decide (targetSize < fileSize)

/-- The byte multiplier the spec names for each size unit: 1, 1024,
1024 squared, 1024 cubed. -/
def SizeUnit.mult : SizeUnit → Nat
  | SizeUnit.Bytes => 1
  | SizeUnit.Kilobytes => 1024
  | SizeUnit.Megabytes => 1024 * 1024
  | SizeUnit.Gigabytes => 1024 * 1024 * 1024

/-- The exact-match tolerance the spec names for each size unit. -/
def sizeTol : SizeUnit → Nat
  | SizeUnit.Bytes => 0
  | SizeUnit.Kilobytes => 512
  | SizeUnit.Megabytes => 524288
  | SizeUnit.Gigabytes => 536870912

/-- Drop one leading sign character, as both filter parsers do. -/
def stripSign (s : List Char) : List Char :=
  match s with
  | [] => []
  | c :: t => if c = '+' then t else if c = '-' then t else c :: t

/-- Whether a character is one of the four size-unit letters of the
grammar `[+-]?N[ckMG]` (case-sensitive). -/
def isSizeUnitChar (c : Char) : Bool :=
  decide (c = 'c') || decide (c = 'k') || decide (c = 'M') || decide (c = 'G')

/-- The size-filter grammar stated by the spec: after an optional sign, the
string is N followed by one of `c`, `k`, `M`, `G`, where N is accepted by
Rust u64 parsing. -/
def sizeGrammar (s : List Char) : Bool :=
  match (stripSign s).getLast? with
  | some u => isSizeUnitChar u && (parseU64 (stripSign s).dropLast).isSome
  | none => false

/-- The sign-to-comparison mapping stated by the spec: a leading plus means
Greater, a leading minus means Lesser, otherwise Exactly. -/
def signSizeComparison (s : List Char) : SizeComparison :=
  match s with
  | [] => SizeComparison.Exactly
  | c :: _ =>
    if c = '+' then SizeComparison.Greater
    else if c = '-' then SizeComparison.Lesser
    else SizeComparison.Exactly

lemma wmul_eq (a b : Nat) (h : a * b < 2 ^ 64) : wmul a b = a * b := by
  simpa [wmul, U64SIZE] using Nat.mod_eq_of_lt h

lemma to_bytes_eq (c : SizeComparison) (v : Nat) (u : SizeUnit)
    (h : v * u.mult < 2 ^ 64) :
    SizeFilter.to_bytes ⟨c, v, u⟩ = v * u.mult := by
  cases u with
  | Bytes => simp [SizeFilter.to_bytes, SizeUnit.mult]
  | Kilobytes =>
    have h1 : v * 1024 < 2 ^ 64 := by simpa [SizeUnit.mult] using h
    simp [SizeFilter.to_bytes, SizeUnit.mult, wmul_eq _ _ h1]
  | Megabytes =>
    have hm : v * (1024 * 1024) < 2 ^ 64 := by simpa [SizeUnit.mult] using h
    have h1 : v * 1024 < 2 ^ 64 :=
      lt_of_le_of_lt (Nat.mul_le_mul le_rfl (by norm_num)) hm
    have h2 : v * 1024 * 1024 < 2 ^ 64 := by
      rw [Nat.mul_assoc]; exact hm
    simp [SizeFilter.to_bytes, SizeUnit.mult, wmul_eq _ _ h1, wmul_eq _ _ h2,
      Nat.mul_assoc]
  | Gigabytes =>
    have hg : v * (1024 * 1024 * 1024) < 2 ^ 64 := by simpa [SizeUnit.mult] using h
    have h1 : v * 1024 < 2 ^ 64 := by
      calc v * 1024 ≤ v * (1024 * 1024 * 1024) :=
            Nat.mul_le_mul le_rfl (by norm_num)
        _ < 2 ^ 64 := hg
    have h2 : v * 1024 * 1024 < 2 ^ 64 := by
      calc v * 1024 * 1024 = v * (1024 * 1024) := by ring
        _ ≤ v * (1024 * 1024 * 1024) := Nat.mul_le_mul le_rfl (by norm_num)
        _ < 2 ^ 64 := hg
    have h3 : v * 1024 * 1024 * 1024 < 2 ^ 64 := by
      calc v * 1024 * 1024 * 1024 = v * (1024 * 1024 * 1024) := by ring
        _ < 2 ^ 64 := hg
    simp [SizeFilter.to_bytes, SizeUnit.mult, wmul_eq _ _ h1, wmul_eq _ _ h2,
      wmul_eq _ _ h3]
    ring

lemma sizeUnitOf_isSome (c : Char) : (sizeUnitOf c).isSome = isSizeUnitChar c := by
  unfold sizeUnitOf isSizeUnitChar
  split_ifs <;> simp_all

lemma sizeParseRest_comparison (cmp : SizeComparison) (r : List Char) :
    (sizeParseRest cmp r).map (fun f => f.comparison)
      = if (match r.getLast? with
            | some u => isSizeUnitChar u && (parseU64 r.dropLast).isSome
            | none => false) then some cmp else none := by
  unfold sizeParseRest
  cases hl : r.getLast? with
  | none => simp
  | some u =>
    cases hu : sizeUnitOf u with
    | none =>
      have hc : isSizeUnitChar u = false := by rw [← sizeUnitOf_isSome, hu]; rfl
      simp [hc, hu]
    | some unit =>
      have hc : isSizeUnitChar u = true := by rw [← sizeUnitOf_isSome, hu]; rfl
      cases hv : parseU64 r.dropLast with
      | none => simp [hc, hu, hv]
      | some v => simp [hc, hu, hv]

lemma size_parse_grammar (s : List Char) :
    (SizeFilter.parse s).map (fun f => f.comparison)
      = if sizeGrammar s then some (signSizeComparison s) else none := by
  cases s with
  | nil => simp [SizeFilter.parse, sizeGrammar, stripSign]
  | cons c t =>
    by_cases h1 : c = '+'
    · simp [SizeFilter.parse, sizeGrammar, stripSign, signSizeComparison, h1,
        sizeParseRest_comparison]
    · by_cases h2 : c = '-'
      · simp [SizeFilter.parse, sizeGrammar, stripSign, signSizeComparison, h1, h2,
          sizeParseRest_comparison]
      · simp [SizeFilter.parse, sizeGrammar, stripSign, signSizeComparison, h1, h2,
          sizeParseRest_comparison]

/-- C6: SizeFilter::parse succeeds exactly on strings of the form
`[+-]?N[ckMG]` where N is accepted by Rust u64 parsing (non-negative, fits
in u64), the unit letter being case-sensitive; a leading `+` yields Greater,
`-` yields Lesser, no sign yields Exactly; in particular `1K`, `1m` and the
empty string are rejected. -/
theorem C6_size_parse (s : List Char) :
    ((SizeFilter.parse s).map (fun f => f.comparison)
        = if sizeGrammar s then some (signSizeComparison s) else none)
    ∧ SizeFilter.parse ['1', 'K'] = none
    ∧ SizeFilter.parse ['1', 'm'] = none
    ∧ SizeFilter.parse [] = none :=
  ⟨size_parse_grammar s, by decide, by decide, rfl⟩

/-- C2: SizeFilter::matches. With Exactly the file size must lie in the
inclusive band of half-unit tolerance around N times the unit multiplier,
the bounds being computed with saturating u64 arithmetic; with Lesser and
Greater the comparison is strict. The hypothesis states that the target
size does not overflow u64, so that the wrapped product of the code equals
the product named by the claim. -/
theorem C2_size_matches (N : Nat) (u : SizeUnit) (fs : Nat)
    (h1 : N * u.mult < 2 ^ 64) :
    (SizeFilter.matches ⟨SizeComparison.Exactly, N, u⟩ fs
        = (decide (N * u.mult - sizeTol u ≤ fs)
            && decide (fs ≤ satAdd (N * u.mult) (sizeTol u))))
    ∧ (SizeFilter.matches ⟨SizeComparison.Lesser, N, u⟩ fs
        = decide (fs < N * u.mult))
    ∧ (SizeFilter.matches ⟨SizeComparison.Greater, N, u⟩ fs
        = decide (N * u.mult < fs)) := by
  refine ⟨?_, ?_, ?_⟩ <;>
    cases u <;>
      simp [SizeFilter.matches, sizeTol, to_bytes_eq _ _ _ h1]

/-- C2 witness: a 1500-byte file matches the exact filter for 1 kilobyte
(band 512 to 1536) and matches neither strict comparison. -/
theorem C2_size_matches_witness :
    (SizeFilter.matches ⟨SizeComparison.Exactly, 1, SizeUnit.Kilobytes⟩ 1500
        = (decide (1 * SizeUnit.Kilobytes.mult - sizeTol SizeUnit.Kilobytes ≤ 1500)
            && decide (1500 ≤ satAdd (1 * SizeUnit.Kilobytes.mult) (sizeTol SizeUnit.Kilobytes))))
    ∧ (SizeFilter.matches ⟨SizeComparison.Lesser, 1, SizeUnit.Kilobytes⟩ 1500
        = decide (1500 < 1 * SizeUnit.Kilobytes.mult))
    ∧ (SizeFilter.matches ⟨SizeComparison.Greater, 1, SizeUnit.Kilobytes⟩ 1500
        = decide (1 * SizeUnit.Kilobytes.mult < 1500)) :=
  C2_size_matches 1 SizeUnit.Kilobytes 1500 (by norm_num [SizeUnit.mult])

/-- C7: SizeFilter::to_bytes multiplies the value by the unit multiplier
(1, 1024, 1024 squared, 1024 cubed) whenever the product fits in u64, and
the filters parsed from `1M` and `1k` resolve to 1048576 and 1024 bytes. -/
theorem C7_to_bytes (c : SizeComparison) (v : Nat) (u : SizeUnit)
    (h : v * u.mult < 2 ^ 64) :
    SizeFilter.to_bytes ⟨c, v, u⟩ = v * u.mult
    ∧ (SizeFilter.parse ['1', 'M']).map SizeFilter.to_bytes = some 1048576
    ∧ (SizeFilter.parse ['1', 'k']).map SizeFilter.to_bytes = some 1024 :=
  ⟨to_bytes_eq c v u h, by decide, by decide⟩

/-- C7 witness: instantiated at the filter with value 1 and unit megabytes. -/
theorem C7_to_bytes_witness :
    SizeFilter.to_bytes ⟨SizeComparison.Exactly, 1, SizeUnit.Megabytes⟩
        = 1 * SizeUnit.Megabytes.mult
    ∧ (SizeFilter.parse ['1', 'M']).map SizeFilter.to_bytes = some 1048576
    ∧ (SizeFilter.parse ['1', 'k']).map SizeFilter.to_bytes = some 1024 :=
  C7_to_bytes SizeComparison.Exactly 1 SizeUnit.Megabytes (by norm_num [SizeUnit.mult])

/-- src/filters/time.rs: a time comparison operation. -/
inductive TimeComparison where
  | Exactly
  | Lesser
  | Greater
deriving DecidableEq

/-- src/filters/time.rs: a time unit for comparison. -/
inductive TimeUnit where
  | Seconds
  | Minutes
  | Hours
  | Days
deriving DecidableEq

/-- src/filters/time.rs: time-based filter configuration. The `value`
field is an i64 in the source. -/
structure TimeFilter where
  comparison : TimeComparison
  value : Int
  unit : TimeUnit
deriving DecidableEq

/-- The unit-character table inside `TimeFilter::parse`, in source order
`s`, `m`, `d`, `h`. -/
def timeUnitOf (c : Char) : Option TimeUnit :=
  if c = 's' then some TimeUnit.Seconds
  else if c = 'm' then some TimeUnit.Minutes
  else if c = 'd' then some TimeUnit.Days
  else if c = 'h' then some TimeUnit.Hours
  else none

/-- The part of `TimeFilter::parse` after the sign has been stripped: the
last character selects the unit, the remaining prefix is parsed as i64. -/
def timeParseRest (comparison : TimeComparison) (rest : List Char) : Option TimeFilter :=
  match rest.getLast? with
  | some u =>
    match timeUnitOf u with
    | some unit =>
      match parseI64 rest.dropLast with
      | some value => some ⟨comparison, value, unit⟩
      | none => none
    | none => none
  | none => none

/-- `TimeFilter::parse`: a leading `+` selects Greater, a leading `-`
selects Lesser, anything else selects Exactly with the whole string kept. -/
def TimeFilter.parse (s : List Char) : Option TimeFilter :=
  match s with
  | [] => none
  | c :: t =>
    if c = '+' then timeParseRest TimeComparison.Greater t
    else if c = '-' then timeParseRest TimeComparison.Lesser t
    else timeParseRest TimeComparison.Exactly (c :: t)

/-- `TimeFilter::to_duration` in whole seconds: the absolute value of the
i64 `value` field, scaled by wrapping u64 multiplications exactly as the
source expressions `value.unsigned_abs() * 24 * 60 * 60` associate. -/
def TimeFilter.to_duration (f : TimeFilter) : Nat :=
  match f.unit with
  | TimeUnit.Seconds => f.value.natAbs
  | TimeUnit.Minutes => wmul f.value.natAbs 60
  | TimeUnit.Hours => wmul (wmul f.value.natAbs 60) 60
  | TimeUnit.Days => wmul (wmul (wmul f.value.natAbs 24) 60) 60

/-- One second expressed in nanoseconds. SystemTime instants and Duration
values are modelled as counts of nanoseconds. -/
def NANOS : Nat := 1000000000

/-- `Duration::MAX` in nanoseconds: u64::MAX whole seconds plus the largest
sub-second nanosecond count. -/
def durationMax : Nat := U64MAX * NANOS + (NANOS - 1)

/-- `Duration::saturating_add` for two whole-second durations: the seconds
add as u64 with a checked add, saturating to `Duration::MAX`. -/
def durSatAddSecs (d t : Nat) : Nat :=
  if d + t ≤ U64MAX then (d + t) * NANOS else durationMax

/-- `TimeFilter::matches`: the age is `now.duration_since(file_time)` with
errors mapped to zero; Exactly uses a per-unit tolerance band with
saturating Duration arithmetic, Lesser and Greater are strict. -/
def TimeFilter.matches (f : TimeFilter) (fileTime now : Nat) : Bool :=
  let duration := f.to_duration
  let age := now - fileTime
  match f.comparison with
  | TimeComparison.Exactly =>
    let tolerance : Nat :=
      match f.unit with
      | TimeUnit.Seconds => 2
      | TimeUnit.Minutes => 30
      | TimeUnit.Hours => 60 * 30
      | TimeUnit.Days => 60 * 60 * 12
    let lower := (duration - tolerance) * NANOS
    let upper := durSatAddSecs duration tolerance
    decide (lower ≤ age) && decide (age ≤ upper)
  | TimeComparison.Lesser => decide (age < duration * NANOS)
  | TimeComparison.Greater => decide (duration * NANOS < age)

/-- Seconds per time unit, as the spec names them. -/
def TimeUnit.secs : TimeUnit → Nat
  | TimeUnit.Seconds => 1
  | TimeUnit.Minutes => 60
  | TimeUnit.Hours => 3600
  | TimeUnit.Days => 86400

/-- The exact-match tolerance in seconds the spec names for each time
unit: 2 s, 30 s, 30 min, 12 h. -/
def timeTol : TimeUnit → Nat
  | TimeUnit.Seconds => 2
  | TimeUnit.Minutes => 30
  | TimeUnit.Hours => 1800
  | TimeUnit.Days => 43200

/-- Whether a character is one of the four time-unit letters of the
grammar `[+-]?N[smhd]`. -/
def isTimeUnitChar (c : Char) : Bool :=
  decide (c = 's') || decide (c = 'm') || decide (c = 'h') || decide (c = 'd')

/-- The time-filter grammar that actually governs `TimeFilter::parse`:
after an optional sign, the string is M followed by one of `s`, `m`, `h`,
`d`, where M is any string Rust i64 parsing accepts, so M may itself carry
one further sign. -/
def timeGrammar (s : List Char) : Bool :=
  match (stripSign s).getLast? with
  | some u => isTimeUnitChar u && (parseI64 (stripSign s).dropLast).isSome
  | none => false

/-- The sign-to-comparison mapping stated by the spec for time filters. -/
def signTimeComparison (s : List Char) : TimeComparison :=
  match s with
  | [] => TimeComparison.Exactly
  | c :: _ =>
    if c = '+' then TimeComparison.Greater
    else if c = '-' then TimeComparison.Lesser
    else TimeComparison.Exactly

lemma timeUnitOf_isSome (c : Char) : (timeUnitOf c).isSome = isTimeUnitChar c := by
  unfold timeUnitOf isTimeUnitChar
  split_ifs <;> simp_all

lemma timeParseRest_comparison (cmp : TimeComparison) (r : List Char) :
    (timeParseRest cmp r).map (fun f => f.comparison)
      = if (match r.getLast? with
            | some u => isTimeUnitChar u && (parseI64 r.dropLast).isSome
            | none => false) then some cmp else none := by
  unfold timeParseRest
  cases hl : r.getLast? with
  | none => simp
  | some u =>
    cases hu : timeUnitOf u with
    | none =>
      have hc : isTimeUnitChar u = false := by rw [← timeUnitOf_isSome, hu]; rfl
      simp [hc, hu]
    | some unit =>
      have hc : isTimeUnitChar u = true := by rw [← timeUnitOf_isSome, hu]; rfl
      cases hv : parseI64 r.dropLast with
      | none => simp [hc, hu, hv]
      | some v => simp [hc, hu, hv]

lemma time_parse_grammar (s : List Char) :
    (TimeFilter.parse s).map (fun f => f.comparison)
      = if timeGrammar s then some (signTimeComparison s) else none := by
  cases s with
  | nil => simp [TimeFilter.parse, timeGrammar, stripSign]
  | cons c t =>
    by_cases h1 : c = '+'
    · simp [TimeFilter.parse, timeGrammar, stripSign, signTimeComparison, h1,
        timeParseRest_comparison]
    · by_cases h2 : c = '-'
      · simp [TimeFilter.parse, timeGrammar, stripSign, signTimeComparison, h1, h2,
          timeParseRest_comparison]
      · simp [TimeFilter.parse, timeGrammar, stripSign, signTimeComparison, h1, h2,
          timeParseRest_comparison]

/-- C3 counterexample: the input `+-5m`, which the claim says must fail
with a parse error, in fact parses successfully: the leading `+` selects
Greater and the numeric part `-5` is accepted by i64 parsing. -/
theorem C3_counterexample :
    TimeFilter.parse ['+', '-', '5', 'm']
      = some ⟨TimeComparison.Greater, -5, TimeUnit.Minutes⟩ := by decide

/-- C3 amended: TimeFilter::parse succeeds exactly on strings of the form
`[+-]?M[smhd]` where M is any string Rust i64 parsing accepts, so a second
sign inside M is accepted rather than rejected; a leading `+` yields
Greater, a leading `-` yields Lesser, no sign yields Exactly; unknown or
missing units and non-i64 numeric parts still fail. -/
theorem C3_time_parse (s : List Char) :
    ((TimeFilter.parse s).map (fun f => f.comparison)
        = if timeGrammar s then some (signTimeComparison s) else none)
    ∧ TimeFilter.parse ['5', 'x'] = none
    ∧ TimeFilter.parse ['5'] = none
    ∧ TimeFilter.parse [] = none :=
  ⟨time_parse_grammar s, by decide, by decide, rfl⟩

lemma to_duration_eq (c : TimeComparison) (N : Nat) (u : TimeUnit)
    (h : N * u.secs < 2 ^ 64) :
    TimeFilter.to_duration ⟨c, (N : Int), u⟩ = N * u.secs := by
  cases u with
  | Seconds => simp [TimeFilter.to_duration, TimeUnit.secs]
  | Minutes =>
    have h1 : N * 60 < 2 ^ 64 := by simpa [TimeUnit.secs] using h
    simp [TimeFilter.to_duration, TimeUnit.secs, wmul_eq _ _ h1]
  | Hours =>
    have hh : N * 3600 < 2 ^ 64 := by simpa [TimeUnit.secs] using h
    have h1 : N * 60 < 2 ^ 64 := by
      calc N * 60 ≤ N * 3600 := Nat.mul_le_mul le_rfl (by norm_num)
        _ < 2 ^ 64 := hh
    have h2 : N * 60 * 60 < 2 ^ 64 := by
      calc N * 60 * 60 = N * 3600 := by ring
        _ < 2 ^ 64 := hh
    have e2 : N * 60 * 60 = N * 3600 := by ring
    simp [TimeFilter.to_duration, TimeUnit.secs, wmul_eq _ _ h1, wmul_eq _ _ h2, e2]
  | Days =>
    have hd : N * 86400 < 2 ^ 64 := by simpa [TimeUnit.secs] using h
    have h1 : N * 24 < 2 ^ 64 := by
      calc N * 24 ≤ N * 86400 := Nat.mul_le_mul le_rfl (by norm_num)
        _ < 2 ^ 64 := hd
    have h2 : N * 24 * 60 < 2 ^ 64 := by
      calc N * 24 * 60 = N * 1440 := by ring
        _ ≤ N * 86400 := Nat.mul_le_mul le_rfl (by norm_num)
        _ < 2 ^ 64 := hd
    have h3 : N * 24 * 60 * 60 < 2 ^ 64 := by
      calc N * 24 * 60 * 60 = N * 86400 := by ring
        _ < 2 ^ 64 := hd
    have e3 : N * 24 * 60 * 60 = N * 86400 := by ring
    simp [TimeFilter.to_duration, TimeUnit.secs, wmul_eq _ _ h1, wmul_eq _ _ h2,
      wmul_eq _ _ h3, e3]

/-- C1: TimeFilter::matches evaluates the age as the larger of zero and
now minus file time; with Exactly it tests membership in the inclusive
band of the per-unit tolerance (2 s, 30 s, 30 min, 12 h) around N times
the unit, the bounds being computed with saturating Duration arithmetic;
with Lesser and Greater the comparison against N times the unit is strict.
Instants are nanosecond counts; the first hypothesis keeps the target
duration inside u64 so the wrapped product of the code equals the product
named by the claim. -/
theorem C1_time_matches (N : Nat) (u : TimeUnit) (fileTime now age : Nat)
    (h1 : N * u.secs < 2 ^ 64)
    (h3 : (age : Int) = max ((now : Int) - (fileTime : Int)) 0) :
    (TimeFilter.matches ⟨TimeComparison.Exactly, (N : Int), u⟩ fileTime now
        = (decide ((N * u.secs - timeTol u) * NANOS ≤ age)
            && decide (age ≤ durSatAddSecs (N * u.secs) (timeTol u))))
    ∧ (TimeFilter.matches ⟨TimeComparison.Lesser, (N : Int), u⟩ fileTime now
        = decide (age < N * u.secs * NANOS))
    ∧ (TimeFilter.matches ⟨TimeComparison.Greater, (N : Int), u⟩ fileTime now
        = decide (N * u.secs * NANOS < age)) := by
  have hage : age = now - fileTime := by omega
  subst hage
  refine ⟨?_, ?_, ?_⟩ <;>
    cases u <;>
      simp [TimeFilter.matches, timeTol, to_duration_eq _ _ _ h1]

/-- C1 witness: a filter for exactly one minute, a file 80 seconds old. -/
theorem C1_time_matches_witness :
    (TimeFilter.matches ⟨TimeComparison.Exactly, ((1 : Nat) : Int), TimeUnit.Minutes⟩ 0 (80 * NANOS)
        = (decide ((1 * TimeUnit.Minutes.secs - timeTol TimeUnit.Minutes) * NANOS ≤ 80 * NANOS)
            && decide (80 * NANOS ≤ durSatAddSecs (1 * TimeUnit.Minutes.secs) (timeTol TimeUnit.Minutes))))
    ∧ (TimeFilter.matches ⟨TimeComparison.Lesser, ((1 : Nat) : Int), TimeUnit.Minutes⟩ 0 (80 * NANOS)
        = decide (80 * NANOS < 1 * TimeUnit.Minutes.secs * NANOS))
    ∧ (TimeFilter.matches ⟨TimeComparison.Greater, ((1 : Nat) : Int), TimeUnit.Minutes⟩ 0 (80 * NANOS)
        = decide (1 * TimeUnit.Minutes.secs * NANOS < 80 * NANOS)) :=
  C1_time_matches 1 TimeUnit.Minutes 0 (80 * NANOS) (80 * NANOS)
    (by norm_num [TimeUnit.secs]) (by norm_num [NANOS])

/-- src/permissions.rs: permission filter subject. -/
inductive PermissionMode where
  | User
  | Group
  | Others
  | All
deriving DecidableEq

/-- src/permissions.rs: permission bit selector. -/
inductive PermissionType where
  | Read
  | Write
  | Execute
  | SetID
deriving DecidableEq

/-- src/permissions.rs: permission-based filter configuration; `expected`
is true when the permission should be present. -/
structure PermissionFilter where
  mode : PermissionMode
  perm_type : PermissionType
  expected : Bool
deriving DecidableEq

/-- The subject-character table inside `PermissionFilter::parse`. -/
def permModeOf (c : Char) : Option PermissionMode :=
  if c = 'u' then some PermissionMode.User
  else if c = 'g' then some PermissionMode.Group
  else if c = 'o' then some PermissionMode.Others
  else if c = 'a' then some PermissionMode.All
  else none

/-- The operator-character table inside `PermissionFilter::parse`. -/
def permOpOf (c : Char) : Option Bool :=
  if c = '+' then some true
  else if c = '-' then some false
  else none

/-- The bit-character table inside `PermissionFilter::parse`. -/
def permTypeOf (c : Char) : Option PermissionType :=
  if c = 'r' then some PermissionType.Read
  else if c = 'w' then some PermissionType.Write
  else if c = 'x' then some PermissionType.Execute
  else if c = 's' then some PermissionType.SetID
  else none

/-- `PermissionFilter::parse`: exactly three characters, each translated
independently by its table; no cross-check between subject and bit. -/
def PermissionFilter.parse (s : List Char) : Option PermissionFilter :=
  match s with
  | [c0, c1, c2] =>
    match permModeOf c0, permOpOf c1, permTypeOf c2 with
    | some mode, some expected, some pt => some ⟨mode, pt, expected⟩
    | _, _, _ => none
  | _ => none

/-- The Unix branch of `PermissionFilter::matches`, taking the file mode
bits returned by `metadata.mode()`. -/
def PermissionFilter.matches (f : PermissionFilter) (fileMode : Nat) : Bool :=
  let check : Nat → Bool := fun bits =>
    match f.perm_type with
    | PermissionType.Read => decide (fileMode &&& bits &&& 0o444 ≠ 0)
    | PermissionType.Write => decide (fileMode &&& bits &&& 0o222 ≠ 0)
    | PermissionType.Execute => decide (fileMode &&& bits &&& 0o111 ≠ 0)
    | PermissionType.SetID =>
      match f.mode with
      | PermissionMode.User => decide (fileMode &&& 0o4000 ≠ 0)
      | PermissionMode.Group => decide (fileMode &&& 0o2000 ≠ 0)
      | _ => false
  let result :=
    match f.mode with
    | PermissionMode.User => check 0o700
    | PermissionMode.Group => check 0o070
    | PermissionMode.Others => check 0o007
    | PermissionMode.All => check 0o700 && check 0o070 && check 0o007
  result == f.expected

/-- Whether a character is a valid permission subject `u`, `g`, `o`, `a`. -/
def isSubjChar (c : Char) : Bool :=
  decide (c = 'u') || decide (c = 'g') || decide (c = 'o') || decide (c = 'a')

/-- Whether a character is a valid permission operator `+` or `-`. -/
def isOpChar (c : Char) : Bool :=
  decide (c = '+') || decide (c = '-')

/-- Whether a character is a valid permission bit `r`, `w`, `x`, `s`. -/
def isPermBitChar (c : Char) : Bool :=
  decide (c = 'r') || decide (c = 'w') || decide (c = 'x') || decide (c = 's')

/-- The permission grammar that actually governs the parser: exactly three
characters matching `[ugoa][+-][rwxs]`, with no restriction tying `s` to
particular subjects. -/
def permGrammar (s : List Char) : Bool :=
  match s with
  | [c0, c1, c2] => isSubjChar c0 && isOpChar c1 && isPermBitChar c2
  | _ => false

lemma permModeOf_isSome (c : Char) : (permModeOf c).isSome = isSubjChar c := by
  unfold permModeOf isSubjChar
  split_ifs <;> simp_all

lemma permOpOf_isSome (c : Char) : (permOpOf c).isSome = isOpChar c := by
  unfold permOpOf isOpChar
  split_ifs <;> simp_all

lemma permTypeOf_isSome (c : Char) : (permTypeOf c).isSome = isPermBitChar c := by
  unfold permTypeOf isPermBitChar
  split_ifs <;> simp_all

/-- C4 counterexample: the input `o+s`, which the claim says must be
rejected because the bit `s` would demand subject `u` or `g`, in fact
parses successfully. -/
theorem C4_counterexample :
    PermissionFilter.parse ['o', '+', 's']
      = some ⟨PermissionMode.Others, PermissionType.SetID, true⟩ := by decide

/-- C4 amended: PermissionFilter::parse succeeds exactly on three-character
strings matching `[ugoa][+-][rwxs]`, with no further restriction: subject
and bit are validated independently, so `o+s` and `a+s` parse (their SetID
check merely evaluates to false at match time); any string of a different
length or with a character outside its class is rejected. -/
theorem C4_perm_parse (s : List Char) :
    ((PermissionFilter.parse s).isSome = permGrammar s)
    ∧ (PermissionFilter.parse ['a', '+', 's']).isSome = true
    ∧ PermissionFilter.parse ['u', '=', 'r'] = none
    ∧ PermissionFilter.parse ['u', '+', 'r', 'r'] = none := by
  refine ⟨?_, by decide, by decide, by decide⟩
  match s with
  | [] => rfl
  | [c0] => rfl
  | [c0, c1] => rfl
  | [c0, c1, c2] =>
    show (PermissionFilter.parse [c0, c1, c2]).isSome = permGrammar [c0, c1, c2]
    cases hm : permModeOf c0 <;> cases ho : permOpOf c1 <;> cases ht : permTypeOf c2 <;>
      simp [PermissionFilter.parse, permGrammar, hm, ho, ht,
        ← permModeOf_isSome, ← permOpOf_isSome, ← permTypeOf_isSome]
  | c0 :: c1 :: c2 :: c3 :: t => rfl

/-- Position of a permission bit inside a 3-bit field: read is bit 2,
write is bit 1, execute is bit 0. -/
def permBitIndex : PermissionType → Nat
  | PermissionType.Read => 2
  | PermissionType.Write => 1
  | PermissionType.Execute => 0
  | PermissionType.SetID => 0

lemma check_eq_testBit (m bits tmask i : Nat) (h : bits &&& tmask = 2 ^ i) :
    decide (m &&& bits &&& tmask ≠ 0) = m.testBit i := by
  rw [Nat.land_assoc, h, Nat.and_two_pow]
  have hp : (2 : Nat) ^ i ≠ 0 := by positivity
  cases ht : m.testBit i <;> simp [ht, hp]

/-- C5: for subject All with polarity present and a bit among r, w, x, the
filter matches exactly when the bit is set in the user field and the group
field and the others field of the file mode (a three-way conjunction); and
for subjects User, Group, Others the result consults only the respective
3-bit field 0o700, 0o070, 0o007 of the mode. -/
theorem C5_perm_all_and (b : PermissionType) (e : Bool) (m m' : Nat)
    (hb : b = PermissionType.Read ∨ b = PermissionType.Write ∨ b = PermissionType.Execute) :
    (PermissionFilter.matches ⟨PermissionMode.All, b, true⟩ m
        = (m.testBit (permBitIndex b + 6) && m.testBit (permBitIndex b + 3)
            && m.testBit (permBitIndex b)))
    ∧ (m &&& 0o700 = m' &&& 0o700 →
        PermissionFilter.matches ⟨PermissionMode.User, b, e⟩ m
          = PermissionFilter.matches ⟨PermissionMode.User, b, e⟩ m')
    ∧ (m &&& 0o070 = m' &&& 0o070 →
        PermissionFilter.matches ⟨PermissionMode.Group, b, e⟩ m
          = PermissionFilter.matches ⟨PermissionMode.Group, b, e⟩ m')
    ∧ (m &&& 0o007 = m' &&& 0o007 →
        PermissionFilter.matches ⟨PermissionMode.Others, b, e⟩ m
          = PermissionFilter.matches ⟨PermissionMode.Others, b, e⟩ m') := by
  rcases hb with rfl | rfl | rfl <;>
    refine ⟨?_, fun h => ?_, fun h => ?_, fun h => ?_⟩
  case' inl.refine_1 =>
    simp [PermissionFilter.matches, permBitIndex,
      check_eq_testBit m 0o700 0o444 8 (by decide),
      check_eq_testBit m 0o070 0o444 5 (by decide),
      check_eq_testBit m 0o007 0o444 2 (by decide)]
  case' inr.inl.refine_1 =>
    simp [PermissionFilter.matches, permBitIndex,
      check_eq_testBit m 0o700 0o222 7 (by decide),
      check_eq_testBit m 0o070 0o222 4 (by decide),
      check_eq_testBit m 0o007 0o222 1 (by decide)]
  case' inr.inr.refine_1 =>
    simp [PermissionFilter.matches, permBitIndex,
      check_eq_testBit m 0o700 0o111 6 (by decide),
      check_eq_testBit m 0o070 0o111 3 (by decide),
      check_eq_testBit m 0o007 0o111 0 (by decide)]
  all_goals simp only [PermissionFilter.matches]
  all_goals rw [h]

/-- C5 witness: mode 0o744 (rwxr--r--) matches a+r, and for subject u the
result is unchanged when the group and others fields change. -/
theorem C5_perm_all_and_witness :
    (PermissionFilter.matches ⟨PermissionMode.All, PermissionType.Read, true⟩ 0o744
        = (Nat.testBit 0o744 (permBitIndex PermissionType.Read + 6)
            && Nat.testBit 0o744 (permBitIndex PermissionType.Read + 3)
            && Nat.testBit 0o744 (permBitIndex PermissionType.Read)))
    ∧ PermissionFilter.matches ⟨PermissionMode.User, PermissionType.Read, true⟩ 0o744
        = PermissionFilter.matches ⟨PermissionMode.User, PermissionType.Read, true⟩ 0o700
    ∧ PermissionFilter.matches ⟨PermissionMode.Group, PermissionType.Read, true⟩ 0o744
        = PermissionFilter.matches ⟨PermissionMode.Group, PermissionType.Read, true⟩ 0o045
    ∧ PermissionFilter.matches ⟨PermissionMode.Others, PermissionType.Read, true⟩ 0o744
        = PermissionFilter.matches ⟨PermissionMode.Others, PermissionType.Read, true⟩ 0o774 :=
  have h := C5_perm_all_and PermissionType.Read true 0o744 0o700
    (Or.inl rfl)
  have h2 := C5_perm_all_and PermissionType.Read true 0o744 0o045
    (Or.inl rfl)
  have h3 := C5_perm_all_and PermissionType.Read true 0o744 0o774
    (Or.inl rfl)
  ⟨h.1, h.2.1 (by decide), h2.2.2.1 (by decide), h3.2.2.2 (by decide)⟩

/-- C10: for subject All with polarity absent and a bit among r, w, x, the
filter matches exactly when at least one of the three fields lacks the
bit: the absent polarity negates the three-field conjunction. -/
theorem C10_perm_all_absent (b : PermissionType) (m : Nat)
    (hb : b = PermissionType.Read ∨ b = PermissionType.Write ∨ b = PermissionType.Execute) :
    PermissionFilter.matches ⟨PermissionMode.All, b, false⟩ m
      = (!(m.testBit (permBitIndex b + 6)) || !(m.testBit (permBitIndex b + 3))
          || !(m.testBit (permBitIndex b))) := by
  rcases hb with rfl | rfl | rfl
  · simp [PermissionFilter.matches, permBitIndex, Bool.not_and,
      check_eq_testBit m 0o700 0o444 8 (by decide),
      check_eq_testBit m 0o070 0o444 5 (by decide),
      check_eq_testBit m 0o007 0o444 2 (by decide)]
  · simp [PermissionFilter.matches, permBitIndex, Bool.not_and,
      check_eq_testBit m 0o700 0o222 7 (by decide),
      check_eq_testBit m 0o070 0o222 4 (by decide),
      check_eq_testBit m 0o007 0o222 1 (by decide)]
  · simp [PermissionFilter.matches, permBitIndex, Bool.not_and,
      check_eq_testBit m 0o700 0o111 6 (by decide),
      check_eq_testBit m 0o070 0o111 3 (by decide),
      check_eq_testBit m 0o007 0o111 0 (by decide)]

/-- C10 witness: mode 0o600 has user read but not group or others read, so
a-r matches. -/
theorem C10_perm_all_absent_witness :
    PermissionFilter.matches ⟨PermissionMode.All, PermissionType.Read, false⟩ 0o600
      = (!(Nat.testBit 0o600 (permBitIndex PermissionType.Read + 6))
          || !(Nat.testBit 0o600 (permBitIndex PermissionType.Read + 3))
          || !(Nat.testBit 0o600 (permBitIndex PermissionType.Read))) :=
  C10_perm_all_absent PermissionType.Read 0o600 (Or.inl rfl)

/-- src/filters/filetype.rs: entry-type filter. -/
inductive TypeFilter where
  | Any
  | File
  | Dir
  | Symlink
deriving DecidableEq

/-- `TypeFilter::from_str`: the or-pattern string match of the source,
rendered as a chain of string comparisons. -/
def TypeFilter.fromStr (s : List Char) : Option TypeFilter :=
  if s = ['f'] ∨ s = ['f', 'i', 'l', 'e'] then some TypeFilter.File
  else if s = ['d'] ∨ s = ['d', 'i', 'r'] then some TypeFilter.Dir
  else if s = ['l'] ∨ s = ['l', 'i', 'n', 'k'] ∨ s = ['s', 'y', 'm', 'l', 'i', 'n', 'k'] then
    some TypeFilter.Symlink
  else if s = ['a', 'n', 'y'] then some TypeFilter.Any
  else none

/-- The accepted type-filter inputs, as the spec lists them. -/
def typeStrings : List (List Char) :=
  [['f'], ['f', 'i', 'l', 'e'], ['d'], ['d', 'i', 'r'],
   ['l'], ['l', 'i', 'n', 'k'], ['s', 'y', 'm', 'l', 'i', 'n', 'k'], ['a', 'n', 'y']]

/-- C8: TypeFilter::from_str returns File exactly for `f` and `file`, Dir
exactly for `d` and `dir`, Symlink exactly for `l`, `link` and `symlink`,
Any exactly for `any`, and an error for every other string; the uppercase
short form `F` is among the rejected strings. -/
theorem C8_type_from_str (s : List Char) :
    ((TypeFilter.fromStr s).isSome = decide (s ∈ typeStrings))
    ∧ (TypeFilter.fromStr s = some TypeFilter.File ↔ s = ['f'] ∨ s = ['f', 'i', 'l', 'e'])
    ∧ (TypeFilter.fromStr s = some TypeFilter.Dir ↔ s = ['d'] ∨ s = ['d', 'i', 'r'])
    ∧ (TypeFilter.fromStr s = some TypeFilter.Symlink
        ↔ s = ['l'] ∨ s = ['l', 'i', 'n', 'k'] ∨ s = ['s', 'y', 'm', 'l', 'i', 'n', 'k'])
    ∧ (TypeFilter.fromStr s = some TypeFilter.Any ↔ s = ['a', 'n', 'y'])
    ∧ TypeFilter.fromStr ['F'] = none := by
  refine ⟨?_, ?_, ?_, ?_, ?_, by decide⟩ <;>
    · unfold TypeFilter.fromStr
      split_ifs with h1 h2 h3 h4 <;>
        first
          | (rcases h1 with h | h <;> subst h <;> decide)
          | (rcases h2 with h | h <;> subst h <;> decide)
          | (rcases h3 with h | h | h <;> subst h <;> decide)
          | (subst h4; decide)
          | simp_all [typeStrings]

end Rfind
